import Mathlib

/-!
Shallow embedding of `stt_recognize.py`, the batch driver that loads service
credentials from an environment file, extracts a keyword list from a
spreadsheet, and submits every regular file of the `audios/` directory to a
speech-recognition service, saving each JSON result under `json/`.

External collaborators (the OS path functions, python-dotenv, pandas, and the
remote recognition service) are modelled at the boundary: files appear as their
parsed contents, the remote service as an oracle from requests to results.
-/

namespace SttRecognize

/-- Left-biased choice on optional strings: an existing binding wins over a
fallback, mirroring dictionary-lookup precedence. -/
def optOr (a b : Option String) : Option String :=
  match a with
  | some v => some v
  | none => b

/-- The process environment, an ordered association list of variable names to
values; lookup returns the first binding for a name. -/
abbrev ProcEnv := List (String × String)

/-- os.getenv: look up a variable in the process environment. -/
def getenv (env : ProcEnv) (k : String) : Option String :=
  (env.find? (fun p => p.1 == k)).map (fun p => p.2)

/-- posixpath.join restricted to two components, as os.path.join uses it in
the script: an absolute second component replaces the first, otherwise a
separator is inserted unless the first component is empty or already ends in
one. -/
def osPathJoin (a b : String) : String :=
  if b.data.head? = some '/' then b
  else if a.data = [] ∨ a.data.getLast? = some '/' then a ++ b
  else a ++ "/" ++ b

/-- Split a character list at its last path separator: the head part (up to
and including the last separator) and the basename. -/
def basenameSplit (l : List Char) : List Char × List Char :=
  ((l.reverse.dropWhile (fun c => c != '/')).reverse,
   (l.reverse.takeWhile (fun c => c != '/')).reverse)

/-- posixpath.dirname, as os.path.dirname is used in the script: everything up
to the last separator, with trailing separators stripped unless the head is
empty or consists only of separators. -/
def osDirname (p : String) : String :=
  let head := (basenameSplit p.data).1
  if head.isEmpty ∨ head.all (fun c => c == '/') then String.mk head
  else String.mk ((head.reverse.dropWhile (fun c => c == '/')).reverse)

/-- os.path.splitext on a basename (a name free of separators): the extension
begins at the last dot, except that the dots leading the name never begin an
extension. -/
def splitextBase (b : List Char) : List Char × List Char :=
  match (b.dropWhile (fun c => c == '.')).reverse.dropWhile (fun c => c != '.') with
  | [] => (b, [])
  | dot :: revRoot =>
      (b.takeWhile (fun c => c == '.') ++ revRoot.reverse,
       dot :: ((b.dropWhile (fun c => c == '.')).reverse.takeWhile
         (fun c => c != '.')).reverse)

/-- os.path.splitext: split a path into root and extension. -/
def splitext (p : String) : String × String :=
  (String.mk ((basenameSplit p.data).1 ++ (splitextBase (basenameSplit p.data).2).1),
   String.mk (splitextBase (basenameSplit p.data).2).2)

/-- The output path written by save_json: the transcripts folder, a
separator, the input name with its extension stripped, and `.json`. -/
def save_json_path (audio_file transcripts_folder : String) : String :=
  transcripts_folder ++ "/" ++ (splitext audio_file).1 ++ ".json"

/-- python-dotenv parsing: the file yields an ordered dictionary in which a
later assignment to a key overwrites the earlier value in place. -/
def dotenv_values (entries : List (String × String)) : List (String × String) :=
  entries.foldl
    (fun acc p =>
      if acc.any (fun q => q.1 == p.1) then
        acc.map (fun q => if q.1 == p.1 then (q.1, p.2) else q)
      else acc ++ [p]) []

/-- python-dotenv load_dotenv with its default override=False: each parsed key
is inserted into the process environment only when not already set there. -/
def load_dotenv (entries : List (String × String)) (environ : ProcEnv) : ProcEnv :=
  (dotenv_values entries).foldl
    (fun env p => if (getenv env p.1).isSome then env else env ++ [p]) environ

/-- The two fatal conditions detected by load_env, each reported by sys.exit
with status 1 after printing a diagnostic. -/
inductive EnvError where
  | emptyValue (key : String)
  | repeatedKey (key : String)
deriving DecidableEq, Repr

/-- Both load_env diagnostics terminate the process via sys.exit(1). -/
def EnvError.exitCode : EnvError → Nat := fun _ => 1

/-- The single-quote character used by the source diagnostics. -/
def sq : String := String.singleton (Char.ofNat 39)

/-- The diagnostic text printed before exiting, from the format strings of the
source. -/
def EnvError.message : EnvError → String
  | .emptyValue k => "The value of " ++ sq ++ k ++ sq ++ " is empty."
  | .repeatedKey k => "Repeated key: " ++ sq ++ k ++ sq ++ "."

/-- The key named by the diagnostic. -/
def EnvError.key : EnvError → String
  | .emptyValue k => k
  | .repeatedKey k => k

/-- The validation loop of load_env over the required keys, carrying the
mapping built so far; mirrors the if/elif chain of the source: first the
absent-or-empty check, then the repeated-key check, then insertion of the
value read by os.getenv. -/
def load_env_loop (environ : ProcEnv) : List String → List (String × String) →
    Except EnvError (List (String × String))
  | [], acc => .ok acc
  | k :: ks, acc =>
    if getenv environ k = none ∨ getenv environ k = some "" then .error (.emptyValue k)
    else if acc.any (fun p => p.1 == k) then .error (.repeatedKey k)
    else load_env_loop environ ks (acc ++ [(k, (getenv environ k).getD "")])

/-- The dotenv path computed by load_env: the env-file argument joined onto
the directory of the script file. -/
def dotenv_path (scriptFile env_file : String) : String :=
  osPathJoin (osDirname scriptFile) env_file

/-- What one call of load_env reads and produces: the path of the file it
loads, the process environment after load_dotenv, and either the validated
mapping or the fatal error. -/
structure LoadEnvResult where
  pathRead : String
  environAfter : ProcEnv
  outcome : Except EnvError (List (String × String))
deriving Repr

/-- load_env: join the env-file name onto the script directory, load that file
into the process environment via load_dotenv, then validate the required keys
against the resulting environment. `readEnvFile` maps a path to the parsed
key=value entries of the file found there. -/
def load_env (readEnvFile : String → List (String × String)) (scriptFile : String)
    (environ : ProcEnv) (env_file : String) (keys : List String) : LoadEnvResult :=
  let path := dotenv_path scriptFile env_file
  let environAfter := load_dotenv (readEnvFile path) environ
  { pathRead := path, environAfter := environAfter,
    outcome := load_env_loop environAfter keys [] }

/-- The service handle built by instantiate_stt: an authenticated client bound
to the service URL. -/
structure Client where
  api_key : String
  service_url : String
deriving DecidableEq, Repr

/-- instantiate_stt: build the SDK client from the API key and service URL. -/
def instantiate_stt (api_key url_service : String) : Client :=
  { api_key := api_key, service_url := url_service }

/-- A spreadsheet cell as surfaced by pandas: a string, a number, or NaN for a
blank cell. -/
inductive Cell where
  | nan
  | str (s : String)
  | num (n : Int)
deriving DecidableEq, Repr

/-- pandas read_excel with an integer header argument h: row h (0-indexed)
supplies the column labels and the rows before it are discarded, so the data
rows are exactly the rows after row h. -/
def read_excel (rows : List (List Cell)) (header : Nat) : List (List Cell) :=
  rows.drop (header + 1)

/-- extract_keywords: the first column of the parsed sheet, in row order; a
missing first cell surfaces as NaN. -/
def extract_keywords (rows : List (List Cell)) (header : Nat) : List Cell :=
  (read_excel rows header).map (fun r => r.headD Cell.nan)

/-- The parameter set of one speech_to_text.recognize call. -/
structure RecognizeRequest where
  audio : String
  content_type : String
  model : String
  customization_id : Option String
  keywords : List Cell
  word_alternatives_threshold : ℚ
  keywords_threshold : ℚ
  speaker_labels : Bool
  inactivity_timeout : Int
  max_alternatives : Nat
deriving DecidableEq, Repr

/-- The request sst_response submits for one audio file, with the fixed
parameters of the source. -/
def sst_request (audio_pathfile : String) (keywords : List Cell)
    (custom_id : Option String) : RecognizeRequest :=
  { audio := audio_pathfile
    content_type := "audio/mp3"
    model := "es-CO_NarrowbandModel"
    customization_id := custom_id
    keywords := keywords
    word_alternatives_threshold := 1/2
    keywords_threshold := 1/2
    speaker_labels := true
    inactivity_timeout := -1
    max_alternatives := 3 }

/-- sst_response: submit the recognition request through the client and return
the service result; `service` is the remote-service oracle. -/
def sst_response {E J : Type} (service : Client → RecognizeRequest → Except E J)
    (audio_pathfile : String) (speech_to_text : Client) (keywords : List Cell)
    (custom_id : Option String) : Except E J :=
  service speech_to_text (sst_request audio_pathfile keywords custom_id)

/-- One entry of the input-directory listing: its name and whether the joined
path is a regular file. -/
structure Entry where
  name : String
  isFile : Bool
deriving DecidableEq, Repr

/-- What the per-file loop of main has done when it stops: the recognition
requests submitted in order, the output files written in order, and the
service error that aborted it, if any. -/
structure BatchResult (E J : Type) where
  requests : List RecognizeRequest
  written : List (String × J)
  failure : Option E
deriving Repr

/-- The fixed input directory of main. -/
def audios_folder : String := "audios"

/-- The fixed output directory of main. -/
def json_folder : String := "json"

/-- The per-file loop of main: for each regular file in listing order, submit
a recognition request; a service error propagates and stops the loop at once,
otherwise the result is saved under the derived json path and the loop
continues. Non-file entries are skipped. -/
def batch_loop {E J : Type} (service : Client → RecognizeRequest → Except E J)
    (client : Client) (keywords : List Cell) (custom_id : Option String) :
    List Entry → BatchResult E J
  | [] => ⟨[], [], none⟩
  | e :: rest =>
    if e.isFile then
      match sst_response service (osPathJoin audios_folder e.name) client keywords custom_id with
      | .error err =>
          ⟨[sst_request (osPathJoin audios_folder e.name) keywords custom_id], [], some err⟩
      | .ok doc =>
          let r := batch_loop service client keywords custom_id rest
          ⟨sst_request (osPathJoin audios_folder e.name) keywords custom_id :: r.requests,
           (save_json_path e.name json_folder, doc) :: r.written,
           r.failure⟩
    else
      batch_loop service client keywords custom_id rest

/-- The required-key list main passes to load_env. -/
def REQUIRED_KEYS : List String := ["api_key", "api_url", "base_lang", "custom_id"]

/-- The observable effects of one run of main. -/
structure MainTrace (E J : Type) where
  pathRead : String
  environAfter : ProcEnv
  configExit : Option EnvError
  clientBuilt : Option Client
  requests : List RecognizeRequest
  written : List (String × J)
  serviceFailure : Option E
deriving Repr

/-- main: load the configuration with the four required keys, build the
client, extract the keywords with header argument 0, and run the batch loop
over the input-directory listing. A configuration error exits before the
client is built and before any request. -/
def main_model {E J : Type} (service : Client → RecognizeRequest → Except E J)
    (readEnvFile : String → List (String × String)) (scriptFile : String)
    (environ : ProcEnv) (env_file : String) (rows : List (List Cell))
    (entries : List Entry) : MainTrace E J :=
  let r := load_env readEnvFile scriptFile environ env_file REQUIRED_KEYS
  match r.outcome with
  | .error e =>
      { pathRead := r.pathRead, environAfter := r.environAfter, configExit := some e,
        clientBuilt := none, requests := [], written := [], serviceFailure := none }
  | .ok env =>
      let client := instantiate_stt ((getenv env "api_key").getD "") ((getenv env "api_url").getD "")
      let keywords := extract_keywords rows 0
      let b := batch_loop service client keywords (some ((getenv env "custom_id").getD "")) entries
      { pathRead := r.pathRead, environAfter := r.environAfter, configExit := none,
        clientBuilt := some client, requests := b.requests, written := b.written,
        serviceFailure := b.failure }

/-! ### Lemmas about environment lookup and dotenv loading -/

theorem optOr_none_right (a : Option String) : optOr a none = a := by
  cases a <;> rfl

theorem getenv_nil (k : String) : getenv [] k = none := rfl

theorem getenv_cons (p : String × String) (rest : ProcEnv) (k : String) :
    getenv (p :: rest) k = if p.1 = k then some p.2 else getenv rest k := by
  by_cases h : p.1 = k
  · simp [getenv, List.find?_cons, h]
  · simp [getenv, List.find?_cons, h]

theorem getenv_append (l₁ l₂ : ProcEnv) (k : String) :
    getenv (l₁ ++ l₂) k = optOr (getenv l₁ k) (getenv l₂ k) := by
  induction l₁ with
  | nil => rfl
  | cons p rest ih =>
    rw [List.cons_append, getenv_cons, getenv_cons]
    by_cases h : p.1 = k
    · simp [h, optOr]
    · simp [h, ih]

theorem getenv_insertNoOverride (es : List (String × String)) (environ : ProcEnv) (k : String) :
    getenv (es.foldl (fun env p => if (getenv env p.1).isSome then env else env ++ [p]) environ) k
      = optOr (getenv environ k) (getenv es k) := by
  induction es generalizing environ with
  | nil => simp [getenv_nil, optOr_none_right]
  | cons p rest ih =>
    rw [List.foldl_cons]
    by_cases hp : (getenv environ p.1).isSome
    · rw [if_pos hp, ih, getenv_cons]
      by_cases hk : p.1 = k
      · subst hk
        obtain ⟨v, hv⟩ := Option.isSome_iff_exists.mp hp
        simp [hv, optOr]
      · simp [hk]
    · rw [if_neg hp, ih, getenv_append, getenv_cons]
      have hnone : getenv environ p.1 = none := Option.not_isSome_iff_eq_none.mp hp
      by_cases hk : p.1 = k
      · subst hk
        simp [hnone, optOr, getenv_cons, getenv_nil]
      · simp [hk, getenv_cons, getenv_nil, optOr_none_right]

theorem getenv_load_dotenv (entries : List (String × String)) (environ : ProcEnv) (k : String) :
    getenv (load_dotenv entries environ) k
      = optOr (getenv environ k) (getenv (dotenv_values entries) k) :=
  getenv_insertNoOverride (dotenv_values entries) environ k

theorem load_env_environAfter (readEnvFile : String → List (String × String))
    (scriptFile : String) (environ : ProcEnv) (env_file : String) (keys : List String) :
    (load_env readEnvFile scriptFile environ env_file keys).environAfter
      = load_dotenv (readEnvFile (dotenv_path scriptFile env_file)) environ := rfl

/-- Claim C9, amended: loading the configuration mutates the process
environment — each key of the parsed environment file that is not already set
is inserted with the file value, while already-set variables keep their
values; there is no effect beyond this insertion. -/
theorem claim_config_load_environ_effect
    (readEnvFile : String → List (String × String)) (scriptFile : String)
    (environ : ProcEnv) (env_file : String) (keys : List String) (k : String) :
    getenv ((load_env readEnvFile scriptFile environ env_file keys).environAfter) k
      = optOr (getenv environ k)
          (getenv (dotenv_values (readEnvFile (dotenv_path scriptFile env_file))) k) := by
  rw [load_env_environAfter]
  exact getenv_load_dotenv _ _ _

/-- Claim C9 counterexample: loading an environment file that defines api_key,
starting from an empty process environment, changes the process environment —
load_dotenv writes the parsed keys into it. -/
theorem claim_config_load_environ_cex :
    (load_env (fun _ => [("api_key", "x")]) "stt_recognize.py" [] ".env"
        REQUIRED_KEYS).environAfter ≠ [] := by
  decide

/-! ### Lemmas about the load_env validation loop -/

theorem load_env_loop_ok (environ : ProcEnv) (keys : List String) :
    ∀ acc : List (String × String),
      keys.Nodup →
      (∀ k ∈ keys, ∃ v, getenv environ k = some v ∧ v ≠ "") →
      (∀ k ∈ keys, acc.any (fun p => p.1 == k) = false) →
      load_env_loop environ keys acc
        = .ok (acc ++ keys.map (fun k => (k, (getenv environ k).getD ""))) := by
  induction keys with
  | nil => intro acc _ _ _; simp [load_env_loop]
  | cons k ks ih =>
    intro acc hnd hgood hacc
    obtain ⟨v, hv, hne⟩ := hgood k (List.mem_cons_self k ks)
    have hcond : ¬(getenv environ k = none ∨ getenv environ k = some "") := by
      rw [hv]
      push_neg
      exact ⟨by simp, by simpa using hne⟩
    have hacck := hacc k (List.mem_cons_self k ks)
    have step : load_env_loop environ (k :: ks) acc
        = load_env_loop environ ks (acc ++ [(k, (getenv environ k).getD "")]) := by
      simp only [load_env_loop]
      rw [if_neg hcond, if_neg (by simp [hacck])]
    rw [step, ih (acc ++ [(k, (getenv environ k).getD "")]) (List.nodup_cons.mp hnd).2
      (fun k' hk' => hgood k' (List.mem_cons_of_mem _ hk'))
      ?_]
    · simp
    · intro k' hk'
      have hne' : k ≠ k' := fun h => (List.nodup_cons.mp hnd).1 (h ▸ hk')
      simp [List.any_append, hacc k' (List.mem_cons_of_mem _ hk'), hne']

theorem load_env_loop_dup (environ : ProcEnv) (keys : List String) :
    ∀ acc : List (String × String),
      (∀ k ∈ keys, ∃ v, getenv environ k = some v ∧ v ≠ "") →
      (¬ keys.Nodup ∨ ∃ k ∈ keys, acc.any (fun p => p.1 == k) = true) →
      ∃ k, load_env_loop environ keys acc = .error (.repeatedKey k) := by
  induction keys with
  | nil =>
    intro acc _ h
    rcases h with h | ⟨k, hk, _⟩
    · exact absurd List.nodup_nil h
    · exact absurd hk (List.not_mem_nil k)
  | cons k ks ih =>
    intro acc hgood hh
    obtain ⟨v, hv, hne⟩ := hgood k (List.mem_cons_self k ks)
    have hcond : ¬(getenv environ k = none ∨ getenv environ k = some "") := by
      rw [hv]
      push_neg
      exact ⟨by simp, by simpa using hne⟩
    by_cases hacck : acc.any (fun p => p.1 == k) = true
    · refine ⟨k, ?_⟩
      simp only [load_env_loop]
      rw [if_neg hcond, if_pos hacck]
    · have hacck' : acc.any (fun p => p.1 == k) = false := by
        revert hacck
        cases acc.any (fun p => p.1 == k) <;> simp
      have step : load_env_loop environ (k :: ks) acc
          = load_env_loop environ ks (acc ++ [(k, (getenv environ k).getD "")]) := by
        simp only [load_env_loop]
        rw [if_neg hcond, if_neg (by simp [hacck'])]
      rw [step]
      apply ih
      · intro k' hk'; exact hgood k' (List.mem_cons_of_mem _ hk')
      · rcases hh with hnd | ⟨km, hkm, haccm⟩
        · rw [List.nodup_cons] at hnd
          push_neg at hnd
          by_cases hmem : k ∈ ks
          · exact Or.inr ⟨k, hmem, by simp [List.any_append]⟩
          · exact Or.inl (hnd hmem)
        · rcases List.mem_cons.mp hkm with hkmk | hkmks
          · subst hkmk
            exact absurd haccm (by simp [hacck'])
          · exact Or.inr ⟨km, hkmks, by simp [List.any_append, haccm]⟩

theorem load_env_loop_first_missing (environ : ProcEnv) (pre : List String) :
    ∀ (k : String) (post : List String) (acc : List (String × String)),
      pre.Nodup →
      (∀ k' ∈ pre, ∃ v, getenv environ k' = some v ∧ v ≠ "") →
      (∀ k' ∈ pre, acc.any (fun p => p.1 == k') = false) →
      (getenv environ k = none ∨ getenv environ k = some "") →
      load_env_loop environ (pre ++ k :: post) acc = .error (.emptyValue k) := by
  induction pre with
  | nil =>
    intro k post acc _ _ _ hbad
    simp only [List.nil_append, load_env_loop]
    rw [if_pos hbad]
  | cons k1 pre' ih =>
    intro k post acc hnd hgood hacc hbad
    obtain ⟨v, hv, hne⟩ := hgood k1 (List.mem_cons_self k1 pre')
    have hcond : ¬(getenv environ k1 = none ∨ getenv environ k1 = some "") := by
      rw [hv]
      push_neg
      exact ⟨by simp, by simpa using hne⟩
    have hacc1 := hacc k1 (List.mem_cons_self k1 pre')
    have step : load_env_loop environ ((k1 :: pre') ++ k :: post) acc
        = load_env_loop environ (pre' ++ k :: post)
            (acc ++ [(k1, (getenv environ k1).getD "")]) := by
      simp only [List.cons_append, load_env_loop]
      rw [if_neg hcond, if_neg (by simp [hacc1])]
      rfl
    rw [step]
    apply ih k post _ (List.nodup_cons.mp hnd).2
      (fun k' hk' => hgood k' (List.mem_cons_of_mem _ hk')) ?_ hbad
    intro k' hk'
    have hne' : k1 ≠ k' := fun h => (List.nodup_cons.mp hnd).1 (h ▸ hk')
    simp [List.any_append, hacc k' (List.mem_cons_of_mem _ hk'), hne']

/-! ### Claims about configuration loading -/

/-- Claim C3, amended: for every duplicate-free required-key list in which
every key is present in the loaded environment with a non-empty value,
load_env returns a mapping whose key sequence is exactly the required keys
and whose value for each key is the exact environment string, with no
trimming and no case change. (For a list repeating a key, load_env exits
instead of returning; see the counterexample.) -/
theorem claim_load_env_exact_mapping
    (readEnvFile : String → List (String × String)) (scriptFile : String)
    (environ : ProcEnv) (env_file : String) (keys : List String)
    (hnd : keys.Nodup)
    (hgood : ∀ k ∈ keys, ∃ v,
      getenv (load_env readEnvFile scriptFile environ env_file keys).environAfter k
        = some v ∧ v ≠ "") :
    (load_env readEnvFile scriptFile environ env_file keys).outcome
        = Except.ok (keys.map (fun k =>
            (k, (getenv (load_env readEnvFile scriptFile environ env_file keys).environAfter
                  k).getD "")))
      ∧ (keys.map (fun k =>
          (k, (getenv (load_env readEnvFile scriptFile environ env_file keys).environAfter
                k).getD ""))).map Prod.fst = keys := by
  constructor
  · have h := load_env_loop_ok
      ((load_env readEnvFile scriptFile environ env_file keys).environAfter) keys []
      hnd hgood (fun k _ => rfl)
    simpa using h
  · rw [List.map_map]
    have hfun : (Prod.fst ∘ fun k : String =>
        (k, (getenv (load_env readEnvFile scriptFile environ env_file keys).environAfter
              k).getD "")) = id := rfl
    rw [hfun, List.map_id]

/-- Claim C3 counterexample: with key k bound to a non-empty value, the
required-key list [k, k] has every key present and non-empty, yet load_env
exits with the repeated-key diagnostic and returns no mapping at all. -/
theorem claim_load_env_exact_mapping_cex :
    getenv (load_env (fun _ => [("k", "v")]) "stt_recognize.py" [] ".env"
        ["k", "k"]).environAfter "k" = some "v"
      ∧ (load_env (fun _ => [("k", "v")]) "stt_recognize.py" [] ".env" ["k", "k"]).outcome
        = Except.error (EnvError.repeatedKey "k")
      ∧ (load_env (fun _ => [("k", "v")]) "stt_recognize.py" [] ".env"
          ["k", "k"]).outcome.toOption = none := by
  exact ⟨by decide, rfl, rfl⟩

/-- Witness for claim C3: a concrete one-key run returning the exact mapping. -/
theorem claim_load_env_exact_mapping_witness :
    (load_env (fun _ => [("a", "1")]) "stt_recognize.py" [] ".env" ["a"]).outcome
        = Except.ok ((["a"] : List String).map (fun k =>
            (k, (getenv (load_env (fun _ => [("a", "1")]) "stt_recognize.py" [] ".env"
                  ["a"]).environAfter k).getD "")))
      ∧ ((["a"] : List String).map (fun k =>
          (k, (getenv (load_env (fun _ => [("a", "1")]) "stt_recognize.py" [] ".env"
                ["a"]).environAfter k).getD ""))).map Prod.fst = ["a"] :=
  claim_load_env_exact_mapping (fun _ => [("a", "1")]) "stt_recognize.py" [] ".env" ["a"]
    (by decide)
    (by
      intro k hk
      have hk' : k = "a" := by simpa using hk
      subst hk'
      exact ⟨"1", by decide, by decide⟩)

/-- Claim C8, amended: for every required-key list containing the same key
name twice, provided every listed key is present and non-empty in the loaded
environment, load_env halts the process with a duplicate-key error and exit
status 1. (If the duplicated key is itself absent or empty, the earlier
missing-value check fires first; see the counterexample.) -/
theorem claim_duplicate_key_error
    (readEnvFile : String → List (String × String)) (scriptFile : String)
    (environ : ProcEnv) (env_file : String) (keys : List String)
    (hgood : ∀ k ∈ keys, ∃ v,
      getenv (load_env readEnvFile scriptFile environ env_file keys).environAfter k
        = some v ∧ v ≠ "")
    (hdup : ¬ keys.Nodup) :
    ∃ k, (load_env readEnvFile scriptFile environ env_file keys).outcome
        = Except.error (EnvError.repeatedKey k)
      ∧ (EnvError.repeatedKey k).exitCode = 1 := by
  obtain ⟨k, hk⟩ := load_env_loop_dup
    ((load_env readEnvFile scriptFile environ env_file keys).environAfter) keys []
    hgood (Or.inl hdup)
  exact ⟨k, hk, rfl⟩

/-- Claim C8 counterexample: the list ["k", "k"] repeats a key, but with the
key absent from the environment load_env halts with the missing-value
diagnostic, not a duplicate-key one. -/
theorem claim_duplicate_key_error_cex :
    (load_env (fun _ => []) "stt_recognize.py" [] ".env" ["k", "k"]).outcome
        = Except.error (EnvError.emptyValue "k")
      ∧ (load_env (fun _ => []) "stt_recognize.py" [] ".env" ["k", "k"]).outcome
        ≠ Except.error (EnvError.repeatedKey "k") := by
  have h1 : (load_env (fun _ => []) "stt_recognize.py" [] ".env" ["k", "k"]).outcome
      = Except.error (EnvError.emptyValue "k") := rfl
  refine ⟨h1, ?_⟩
  rw [h1]
  simp

/-- Witness for claim C8: a concrete duplicated, present, non-empty key. -/
theorem claim_duplicate_key_error_witness :
    ∃ k, (load_env (fun _ => [("a", "1")]) "stt_recognize.py" [] ".env" ["a", "a"]).outcome
        = Except.error (EnvError.repeatedKey k)
      ∧ (EnvError.repeatedKey k).exitCode = 1 :=
  claim_duplicate_key_error (fun _ => [("a", "1")]) "stt_recognize.py" [] ".env" ["a", "a"]
    (by
      intro k hk
      have hk' : k = "a" := by simpa using hk
      subst hk'
      exact ⟨"1", by decide, by decide⟩)
    (by decide)

/-- Claim C2, amended: if any required key is absent from the loaded
environment or maps to the empty string, load_env halts the process with exit
status 1 and a diagnostic message naming the first offending key in list
order (not necessarily the given one), and no service client is ever
constructed and no recognition request or output is produced. -/
theorem claim_missing_key_halts {E J : Type}
    (service : Client → RecognizeRequest → Except E J)
    (readEnvFile : String → List (String × String)) (scriptFile : String)
    (environ : ProcEnv) (env_file : String) (rows : List (List Cell))
    (entries : List Entry) (pre post : List String) (k : String)
    (hnd : pre.Nodup)
    (hpre : ∀ k' ∈ pre, ∃ v,
      getenv (load_env readEnvFile scriptFile environ env_file
          (pre ++ k :: post)).environAfter k' = some v ∧ v ≠ "")
    (hbad : getenv (load_env readEnvFile scriptFile environ env_file
          (pre ++ k :: post)).environAfter k = none
      ∨ getenv (load_env readEnvFile scriptFile environ env_file
          (pre ++ k :: post)).environAfter k = some "") :
    (load_env readEnvFile scriptFile environ env_file (pre ++ k :: post)).outcome
        = Except.error (EnvError.emptyValue k)
      ∧ (EnvError.emptyValue k).exitCode = 1
      ∧ (EnvError.emptyValue k).message = "The value of " ++ sq ++ k ++ sq ++ " is empty."
      ∧ (pre ++ k :: post = REQUIRED_KEYS →
          (main_model service readEnvFile scriptFile environ env_file rows entries).configExit
              = some (EnvError.emptyValue k)
            ∧ (main_model service readEnvFile scriptFile environ env_file rows
                entries).clientBuilt = none
            ∧ (main_model service readEnvFile scriptFile environ env_file rows
                entries).requests = []
            ∧ (main_model service readEnvFile scriptFile environ env_file rows
                entries).written = []) := by
  have houtcome : (load_env readEnvFile scriptFile environ env_file
      (pre ++ k :: post)).outcome = Except.error (EnvError.emptyValue k) :=
    load_env_loop_first_missing
      ((load_env readEnvFile scriptFile environ env_file (pre ++ k :: post)).environAfter)
      pre k post [] hnd hpre (fun k' _ => rfl) hbad
  refine ⟨houtcome, rfl, rfl, ?_⟩
  intro hEq
  have h2 : (load_env readEnvFile scriptFile environ env_file REQUIRED_KEYS).outcome
      = Except.error (EnvError.emptyValue k) := by
    rw [← hEq]; exact houtcome
  simp [main_model, h2]

/-- Claim C2 counterexample: with an empty environment and no env-file
contents, api_url is a required key that is absent, yet the diagnostic names
api_key — the first key of the list — not api_url. -/
theorem claim_missing_key_halts_cex :
    getenv (load_env (fun _ => []) "stt_recognize.py" [] ".env"
        REQUIRED_KEYS).environAfter "api_url" = none
      ∧ (load_env (fun _ => []) "stt_recognize.py" [] ".env" REQUIRED_KEYS).outcome
        = Except.error (EnvError.emptyValue "api_key")
      ∧ (EnvError.emptyValue "api_key").key ≠ "api_url" := by
  exact ⟨by decide, rfl, by decide⟩

/-- Witness for claim C2: api_key is set but api_url is missing, so the run
exits with status 1 naming api_url and builds no client. -/
theorem claim_missing_key_halts_witness :
    (load_env (fun _ => [("api_key", "x")]) "stt_recognize.py" [] ".env"
        (["api_key"] ++ "api_url" :: ["base_lang", "custom_id"])).outcome
        = Except.error (EnvError.emptyValue "api_url")
      ∧ (EnvError.emptyValue "api_url").exitCode = 1
      ∧ (EnvError.emptyValue "api_url").message
          = "The value of " ++ sq ++ "api_url" ++ sq ++ " is empty."
      ∧ (["api_key"] ++ "api_url" :: ["base_lang", "custom_id"] = REQUIRED_KEYS →
          (main_model ((fun _ _ => Except.ok 0) : Client → RecognizeRequest → Except Unit Nat)
              (fun _ => [("api_key", "x")]) "stt_recognize.py" [] ".env" [] []).configExit
              = some (EnvError.emptyValue "api_url")
            ∧ (main_model ((fun _ _ => Except.ok 0) : Client → RecognizeRequest → Except Unit Nat)
                (fun _ => [("api_key", "x")]) "stt_recognize.py" [] ".env" [] []).clientBuilt = none
            ∧ (main_model ((fun _ _ => Except.ok 0) : Client → RecognizeRequest → Except Unit Nat)
                (fun _ => [("api_key", "x")]) "stt_recognize.py" [] ".env" [] []).requests = []
            ∧ (main_model ((fun _ _ => Except.ok 0) : Client → RecognizeRequest → Except Unit Nat)
                (fun _ => [("api_key", "x")]) "stt_recognize.py" [] ".env" [] []).written = []) :=
  claim_missing_key_halts ((fun _ _ => Except.ok 0) : Client → RecognizeRequest → Except Unit Nat)
    (fun _ => [("api_key", "x")]) "stt_recognize.py" [] ".env" [] []
    ["api_key"] ["base_lang", "custom_id"] "api_url"
    (by decide)
    (by
      intro k hk
      have hk' : k = "api_key" := by simpa using hk
      subst hk'
      exact ⟨"x", by decide, by decide⟩)
    (Or.inl (by decide))

/-- Claim C10: the environment-file path given on the command line is joined
onto the directory of the script's own source file before loading; for a
relative argument it therefore differs from the resolution against any other
current working directory. -/
theorem claim_env_path_script_relative
    (readEnvFile : String → List (String × String)) (scriptFile : String)
    (environ : ProcEnv) (env_file : String) (keys : List String) (cwd : String)
    (hrel : env_file.data.head? ≠ some '/')
    (hd1 : (osDirname scriptFile).data ≠ [])
    (hd2 : (osDirname scriptFile).data.getLast? ≠ some '/')
    (hc1 : cwd.data ≠ [])
    (hc2 : cwd.data.getLast? ≠ some '/')
    (hne : osDirname scriptFile ≠ cwd) :
    (load_env readEnvFile scriptFile environ env_file keys).pathRead
        = osDirname scriptFile ++ "/" ++ env_file
      ∧ (load_env readEnvFile scriptFile environ env_file keys).pathRead
        ≠ osPathJoin cwd env_file := by
  have h1 : (load_env readEnvFile scriptFile environ env_file keys).pathRead
      = osDirname scriptFile ++ "/" ++ env_file := by
    show dotenv_path scriptFile env_file = _
    unfold dotenv_path osPathJoin
    rw [if_neg hrel, if_neg (not_or.mpr ⟨hd1, hd2⟩)]
  have h2 : osPathJoin cwd env_file = cwd ++ "/" ++ env_file := by
    unfold osPathJoin
    rw [if_neg hrel, if_neg (not_or.mpr ⟨hc1, hc2⟩)]
  refine ⟨h1, ?_⟩
  rw [h1, h2]
  intro heq
  apply hne
  have hdata := congrArg String.data heq
  simp only [String.data_append] at hdata
  have s1 : (osDirname scriptFile).data ++ "/".data = cwd.data ++ "/".data :=
    List.append_cancel_right hdata
  have s2 : (osDirname scriptFile).data = cwd.data :=
    List.append_cancel_right s1
  exact congrArg String.mk s2

/-- Witness for claim C10: a script under /app with a relative .env argument
and a different working directory /work. -/
theorem claim_env_path_script_relative_witness :
    (load_env (fun _ => []) "/app/stt_recognize.py" [] ".env" []).pathRead
        = osDirname "/app/stt_recognize.py" ++ "/" ++ ".env"
      ∧ (load_env (fun _ => []) "/app/stt_recognize.py" [] ".env" []).pathRead
        ≠ osPathJoin "/work" ".env" :=
  claim_env_path_script_relative (fun _ => []) "/app/stt_recognize.py" [] ".env" [] "/work"
    (by decide) (by decide) (by decide) (by decide) (by decide) (by decide)

/-! ### Claims about keyword extraction -/

/-- Claim C4 counterexample: a sheet with one header row and two data rows in
the first column, extracted with header-row count 1, yields only one value —
the header argument is the 0-indexed row of the column labels, so h+1 leading
rows are consumed, not h. -/
theorem claim_extract_keywords_cex :
    extract_keywords [[Cell.str "hdr"], [Cell.str "a"], [Cell.str "b"]] 1 = [Cell.str "b"]
      ∧ (extract_keywords [[Cell.str "hdr"], [Cell.str "a"], [Cell.str "b"]] 1).length ≠ 2 := by
  exact ⟨rfl, by decide⟩

/-- Claim C4, amended: extract_keywords called with header argument h treats
row h as the column labels and consumes the h+1 leading rows; for a
spreadsheet with h+1 header rows and n data rows it returns the n first-column
values in source row order, duplicates preserved. -/
theorem claim_extract_keywords_rows (hdr data : List (List Cell)) (h : Nat)
    (hlen : hdr.length = h + 1) :
    extract_keywords (hdr ++ data) h = data.map (fun r => r.headD Cell.nan)
      ∧ (extract_keywords (hdr ++ data) h).length = data.length := by
  have hdrop : (hdr ++ data).drop (h + 1) = data := by
    rw [← hlen]
    exact List.drop_left hdr data
  constructor
  · unfold extract_keywords read_excel
    rw [hdrop]
  · unfold extract_keywords read_excel
    rw [hdrop, List.length_map]

/-- Witness for claim C4: one header row (h = 0), two duplicate data rows. -/
theorem claim_extract_keywords_rows_witness :
    extract_keywords ([[Cell.str "kw"]] ++ [[Cell.str "a"], [Cell.str "a"]]) 0
        = [[Cell.str "a"], [Cell.str "a"]].map (fun r => r.headD Cell.nan)
      ∧ (extract_keywords ([[Cell.str "kw"]] ++ [[Cell.str "a"], [Cell.str "a"]]) 0).length
        = ([[Cell.str "a"], [Cell.str "a"]] : List (List Cell)).length :=
  claim_extract_keywords_rows [[Cell.str "kw"]] [[Cell.str "a"], [Cell.str "a"]] 0 rfl

/-! ### Lemmas about splitext and the derived output path -/

theorem takeWhile_all_true {p : Char → Bool} {l : List Char}
    (h : ∀ c ∈ l, p c = true) : l.takeWhile p = l := by
  induction l with
  | nil => rfl
  | cons a rest ih =>
    simp [List.takeWhile_cons, h a (List.mem_cons_self a rest),
      ih (fun c hc => h c (List.mem_cons_of_mem a hc))]

theorem dropWhile_all_true {p : Char → Bool} {l : List Char}
    (h : ∀ c ∈ l, p c = true) : l.dropWhile p = [] := by
  induction l with
  | nil => rfl
  | cons a rest ih =>
    simp [List.dropWhile_cons, h a (List.mem_cons_self a rest),
      ih (fun c hc => h c (List.mem_cons_of_mem a hc))]

theorem takeWhile_head_false (p : Char → Bool) {a : Char} {l : List Char}
    (h : p a = false) : (a :: l).takeWhile p = [] := by
  simp [List.takeWhile_cons, h]

theorem dropWhile_head_false (p : Char → Bool) {a : Char} {l : List Char}
    (h : p a = false) : (a :: l).dropWhile p = a :: l := by
  simp [List.dropWhile_cons, h]

theorem takeWhile_append_break {p : Char → Bool} {l₁ l₂ : List Char} {c : Char}
    (h₁ : ∀ x ∈ l₁, p x = true) (hc : p c = false) :
    (l₁ ++ c :: l₂).takeWhile p = l₁ := by
  induction l₁ with
  | nil => simp [List.takeWhile_cons, hc]
  | cons a rest ih =>
    simp [List.takeWhile_cons, h₁ a (List.mem_cons_self a rest),
      ih (fun x hx => h₁ x (List.mem_cons_of_mem a hx))]

theorem dropWhile_append_break {p : Char → Bool} {l₁ l₂ : List Char} {c : Char}
    (h₁ : ∀ x ∈ l₁, p x = true) (hc : p c = false) :
    (l₁ ++ c :: l₂).dropWhile p = c :: l₂ := by
  induction l₁ with
  | nil => simp [List.dropWhile_cons, hc]
  | cons a rest ih =>
    simp [List.dropWhile_cons, h₁ a (List.mem_cons_self a rest),
      ih (fun x hx => h₁ x (List.mem_cons_of_mem a hx))]

theorem basenameSplit_no_sep {l : List Char} (h : '/' ∉ l) :
    basenameSplit l = ([], l) := by
  have hall : ∀ c ∈ l.reverse, (c != '/') = true := by
    intro c hc
    rw [List.mem_reverse] at hc
    simp only [bne_iff_ne, ne_eq]
    exact fun hceq => h (hceq ▸ hc)
  unfold basenameSplit
  rw [dropWhile_all_true hall, takeWhile_all_true hall]
  simp

theorem splitextBase_no_dot {l : List Char} (h : '.' ∉ l) :
    splitextBase l = (l, []) := by
  have hall : ∀ c ∈ l, (c == '.') = false := by
    intro c hc
    simp only [beq_eq_false_iff_ne, ne_eq]
    exact fun hceq => h (hceq ▸ hc)
  have hallrev : ∀ c ∈ l.reverse, (c != '.') = true := by
    intro c hc
    rw [List.mem_reverse] at hc
    simp only [bne_iff_ne, ne_eq]
    exact fun hceq => h (hceq ▸ hc)
  unfold splitextBase
  cases l with
  | nil => rfl
  | cons a rest =>
    rw [dropWhile_head_false (fun c => c == '.') (hall a (List.mem_cons_self a rest)),
      dropWhile_all_true hallrev]

theorem splitextBase_with_ext {base ext : List Char}
    (hb0 : base ≠ []) (hbdot : '.' ∉ base) (hedot : '.' ∉ ext) :
    splitextBase (base ++ '.' :: ext) = (base, '.' :: ext) := by
  have hbfalse : ∀ c ∈ base, (c == '.') = false := by
    intro c hc
    simp only [beq_eq_false_iff_ne, ne_eq]
    exact fun hceq => hbdot (hceq ▸ hc)
  have herev : ∀ c ∈ ext.reverse, (c != '.') = true := by
    intro c hc
    rw [List.mem_reverse] at hc
    simp only [bne_iff_ne, ne_eq]
    exact fun hceq => hedot (hceq ▸ hc)
  cases base with
  | nil => exact absurd rfl hb0
  | cons b0 brest =>
    have hhead : ((b0 :: brest) ++ '.' :: ext).dropWhile (fun c => c == '.')
        = (b0 :: brest) ++ '.' :: ext := by
      rw [List.cons_append]
      exact dropWhile_head_false (fun c => c == '.')
        (hbfalse b0 (List.mem_cons_self b0 brest))
    have htake : ((b0 :: brest) ++ '.' :: ext).takeWhile (fun c => c == '.') = [] := by
      rw [List.cons_append]
      exact takeWhile_head_false (fun c => c == '.')
        (hbfalse b0 (List.mem_cons_self b0 brest))
    have hrev : ((b0 :: brest) ++ '.' :: ext).reverse
        = ext.reverse ++ '.' :: (b0 :: brest).reverse := by
      rw [List.reverse_append, List.reverse_cons]
      simp
    unfold splitextBase
    rw [hhead, hrev, dropWhile_append_break herev (by decide),
      takeWhile_append_break herev (by decide), htake]
    simp

theorem splitext_no_dot (name : String) (hdot : '.' ∉ name.data)
    (hsep : '/' ∉ name.data) : splitext name = (name, "") := by
  have h1 : splitext name
      = (String.mk ([] ++ (splitextBase name.data).1),
         String.mk (splitextBase name.data).2) := by
    unfold splitext
    rw [basenameSplit_no_sep hsep]
  rw [h1, splitextBase_no_dot hdot]
  rfl

theorem splitext_with_ext (base ext : String) (hb0 : base ≠ "")
    (hbdot : '.' ∉ base.data) (hbsep : '/' ∉ base.data)
    (hedot : '.' ∉ ext.data) (hesep : '/' ∉ ext.data) :
    splitext (base ++ "." ++ ext) = (base, "." ++ ext) := by
  have hdata : (base ++ "." ++ ext).data = base.data ++ '.' :: ext.data := by
    simp [String.data_append]
  have hbne : base.data ≠ [] := by
    intro hnil
    apply hb0
    have hmk : base = String.mk base.data := rfl
    rw [hmk, hnil]
  have hnosep : '/' ∉ (base ++ "." ++ ext).data := by
    rw [hdata]
    intro hmem
    rcases List.mem_append.mp hmem with hm | hm
    · exact hbsep hm
    · rcases List.mem_cons.mp hm with hm' | hm'
      · exact absurd hm' (by decide)
      · exact hesep hm'
  have h1 : splitext (base ++ "." ++ ext)
      = (String.mk ([] ++ (splitextBase (base.data ++ '.' :: ext.data)).1),
         String.mk (splitextBase (base.data ++ '.' :: ext.data)).2) := by
    unfold splitext
    rw [hdata, basenameSplit_no_sep (hdata ▸ hnosep)]
  rw [h1, splitextBase_with_ext hbne hbdot hedot]
  rfl

/-- Claim C5: the output artifact path is the fixed output folder joined with
the input base name, its extension replaced by .json; in particular
clip_01.mp3 maps to json/clip_01.json and extensionless clip to
json/clip.json. -/
theorem claim_save_json_path (base ext name : String)
    (hb0 : base ≠ "") (hbdot : '.' ∉ base.data) (hbsep : '/' ∉ base.data)
    (hedot : '.' ∉ ext.data) (hesep : '/' ∉ ext.data)
    (hndot : '.' ∉ name.data) (hnsep : '/' ∉ name.data) :
    save_json_path (base ++ "." ++ ext) json_folder = json_folder ++ "/" ++ base ++ ".json"
      ∧ save_json_path name json_folder = json_folder ++ "/" ++ name ++ ".json"
      ∧ save_json_path "clip_01.mp3" json_folder = "json/clip_01.json"
      ∧ save_json_path "clip" json_folder = "json/clip.json" := by
  refine ⟨?_, ?_, rfl, rfl⟩
  · unfold save_json_path
    rw [splitext_with_ext base ext hb0 hbdot hbsep hedot hesep]
  · unfold save_json_path
    rw [splitext_no_dot name hndot hnsep]

/-- Witness for claim C5 at clip_01.mp3 and clip. -/
theorem claim_save_json_path_witness :
    save_json_path ("clip_01" ++ "." ++ "mp3") json_folder
        = json_folder ++ "/" ++ "clip_01" ++ ".json"
      ∧ save_json_path "clip" json_folder = json_folder ++ "/" ++ "clip" ++ ".json"
      ∧ save_json_path "clip_01.mp3" json_folder = "json/clip_01.json"
      ∧ save_json_path "clip" json_folder = "json/clip.json" :=
  claim_save_json_path "clip_01" "mp3" "clip" (by decide) (by decide) (by decide)
    (by decide) (by decide) (by decide) (by decide)

/-! ### Lemmas about the batch loop -/

theorem batch_loop_cons_ok {E J : Type} (service : Client → RecognizeRequest → Except E J)
    (client : Client) (keywords : List Cell) (custom_id : Option String)
    (e : Entry) (rest : List Entry) (d : J)
    (he : e.isFile = true)
    (hd : service client (sst_request (osPathJoin audios_folder e.name) keywords custom_id)
      = Except.ok d) :
    batch_loop service client keywords custom_id (e :: rest)
      = ⟨sst_request (osPathJoin audios_folder e.name) keywords custom_id
            :: (batch_loop service client keywords custom_id rest).requests,
         (save_json_path e.name json_folder, d)
            :: (batch_loop service client keywords custom_id rest).written,
         (batch_loop service client keywords custom_id rest).failure⟩ := by
  simp [batch_loop, sst_response, he, hd]

theorem batch_loop_cons_err {E J : Type} (service : Client → RecognizeRequest → Except E J)
    (client : Client) (keywords : List Cell) (custom_id : Option String)
    (e : Entry) (rest : List Entry) (err : E)
    (he : e.isFile = true)
    (hd : service client (sst_request (osPathJoin audios_folder e.name) keywords custom_id)
      = Except.error err) :
    batch_loop service client keywords custom_id (e :: rest)
      = ⟨[sst_request (osPathJoin audios_folder e.name) keywords custom_id], [], some err⟩ := by
  simp [batch_loop, sst_response, he, hd]

theorem batch_loop_cons_skip {E J : Type} (service : Client → RecognizeRequest → Except E J)
    (client : Client) (keywords : List Cell) (custom_id : Option String)
    (e : Entry) (rest : List Entry)
    (he : e.isFile = false) :
    batch_loop service client keywords custom_id (e :: rest)
      = batch_loop service client keywords custom_id rest := by
  simp [batch_loop, he]

theorem batch_requests_are_sst {E J : Type} (service : Client → RecognizeRequest → Except E J)
    (client : Client) (keywords : List Cell) (custom_id : Option String) :
    ∀ (entries : List Entry) (req : RecognizeRequest),
      req ∈ (batch_loop service client keywords custom_id entries).requests →
      ∃ p, req = sst_request p keywords custom_id := by
  intro entries
  induction entries with
  | nil => intro req h; simp [batch_loop] at h
  | cons e rest ih =>
    intro req h
    by_cases he : e.isFile = true
    · cases hs : service client (sst_request (osPathJoin audios_folder e.name) keywords
          custom_id) with
      | error err =>
        rw [batch_loop_cons_err service client keywords custom_id e rest err he hs] at h
        simp at h
        exact ⟨_, h⟩
      | ok d =>
        rw [batch_loop_cons_ok service client keywords custom_id e rest d he hs] at h
        rcases List.mem_cons.mp h with h' | h'
        · exact ⟨_, h'⟩
        · exact ih req h'
    · have he' : e.isFile = false := by
        revert he
        cases e.isFile <;> simp
      rw [batch_loop_cons_skip service client keywords custom_id e rest he'] at h
      exact ih req h

/-! ### Claims about the batch loop -/

/-- Claim C6: every recognition request submitted by the batch loop carries
the fixed parameter set: audio/mp3 content type, the es-CO narrowband model,
the supplied customization identifier, the supplied keyword list, thresholds
0.5 for word alternatives and keyword spotting, speaker labels enabled,
inactivity timeout disabled (-1, wait indefinitely), and at most 3
alternatives. -/
theorem claim_recognize_fixed_params {E J : Type}
    (service : Client → RecognizeRequest → Except E J) (client : Client)
    (keywords : List Cell) (custom_id : Option String) (entries : List Entry)
    (req : RecognizeRequest)
    (hreq : req ∈ (batch_loop service client keywords custom_id entries).requests) :
    req.content_type = "audio/mp3"
      ∧ req.model = "es-CO_NarrowbandModel"
      ∧ req.customization_id = custom_id
      ∧ req.keywords = keywords
      ∧ req.word_alternatives_threshold = 1/2
      ∧ req.keywords_threshold = 1/2
      ∧ req.speaker_labels = true
      ∧ req.inactivity_timeout = -1
      ∧ req.max_alternatives = 3 := by
  obtain ⟨p, rfl⟩ := batch_requests_are_sst service client keywords custom_id entries req hreq
  exact ⟨rfl, rfl, rfl, rfl, rfl, rfl, rfl, rfl, rfl⟩

/-- Witness for claim C6: one regular file processed by an always-succeeding
service. -/
theorem claim_recognize_fixed_params_witness :
    (sst_request (osPathJoin audios_folder "a.mp3") [] (some "c")).content_type = "audio/mp3"
      ∧ (sst_request (osPathJoin audios_folder "a.mp3") [] (some "c")).model
          = "es-CO_NarrowbandModel"
      ∧ (sst_request (osPathJoin audios_folder "a.mp3") [] (some "c")).customization_id
          = some "c"
      ∧ (sst_request (osPathJoin audios_folder "a.mp3") [] (some "c")).keywords = []
      ∧ (sst_request (osPathJoin audios_folder "a.mp3") [] (some "c")).word_alternatives_threshold
          = 1/2
      ∧ (sst_request (osPathJoin audios_folder "a.mp3") [] (some "c")).keywords_threshold = 1/2
      ∧ (sst_request (osPathJoin audios_folder "a.mp3") [] (some "c")).speaker_labels = true
      ∧ (sst_request (osPathJoin audios_folder "a.mp3") [] (some "c")).inactivity_timeout = -1
      ∧ (sst_request (osPathJoin audios_folder "a.mp3") [] (some "c")).max_alternatives = 3 :=
  claim_recognize_fixed_params
    ((fun _ _ => Except.ok 0) : Client → RecognizeRequest → Except Unit Nat)
    (instantiate_stt "k" "u") [] (some "c") [⟨"a.mp3", true⟩]
    (sst_request (osPathJoin audios_folder "a.mp3") [] (some "c"))
    (by
      rw [batch_loop_cons_ok ((fun _ _ => Except.ok 0) :
          Client → RecognizeRequest → Except Unit Nat)
        (instantiate_stt "k" "u") [] (some "c") ⟨"a.mp3", true⟩ [] 0 rfl rfl]
      exact List.mem_cons_self _ _)

/-- Claim C7: the batch loop processes exactly the regular files of the
directory listing — when every regular file succeeds, there is no failure,
one request and one output per regular file in listing order, and non-file
entries trigger no request and no output. -/
theorem claim_batch_regular_files {E J : Type}
    (service : Client → RecognizeRequest → Except E J) (client : Client)
    (keywords : List Cell) (custom_id : Option String) (entries : List Entry)
    (hok : ∀ e ∈ entries, e.isFile = true →
      ∃ d, service client (sst_request (osPathJoin audios_folder e.name) keywords custom_id)
        = Except.ok d) :
    (batch_loop service client keywords custom_id entries).failure = none
      ∧ (batch_loop service client keywords custom_id entries).requests
        = (entries.filter (fun e => e.isFile)).map
            (fun e => sst_request (osPathJoin audios_folder e.name) keywords custom_id)
      ∧ (batch_loop service client keywords custom_id entries).written.map Prod.fst
        = (entries.filter (fun e => e.isFile)).map
            (fun e => save_json_path e.name json_folder) := by
  induction entries with
  | nil => exact ⟨rfl, rfl, rfl⟩
  | cons e rest ih =>
    have hrest := ih (fun e' he' hf => hok e' (List.mem_cons_of_mem _ he') hf)
    by_cases he : e.isFile = true
    · obtain ⟨d, hd⟩ := hok e (List.mem_cons_self e rest) he
      rw [batch_loop_cons_ok service client keywords custom_id e rest d he hd]
      refine ⟨hrest.1, ?_, ?_⟩
      · simp [List.filter_cons, he, hrest.2.1]
      · simp [List.filter_cons, he, hrest.2.2]
    · have he' : e.isFile = false := by
        revert he
        cases e.isFile <;> simp
      rw [batch_loop_cons_skip service client keywords custom_id e rest he']
      refine ⟨hrest.1, ?_, ?_⟩
      · simp [List.filter_cons, he', hrest.2.1]
      · simp [List.filter_cons, he', hrest.2.2]

/-- Witness for claim C7: two regular files and one sub-directory yield
exactly two requests and two outputs; the sub-directory is skipped. -/
theorem claim_batch_regular_files_witness :
    (batch_loop ((fun _ _ => Except.ok 0) : Client → RecognizeRequest → Except Unit Nat)
        (instantiate_stt "k" "u") [] (some "c")
        [⟨"a.mp3", true⟩, ⟨"b.wav", true⟩, ⟨"sub", false⟩]).failure = none
      ∧ (batch_loop ((fun _ _ => Except.ok 0) : Client → RecognizeRequest → Except Unit Nat)
          (instantiate_stt "k" "u") [] (some "c")
          [⟨"a.mp3", true⟩, ⟨"b.wav", true⟩, ⟨"sub", false⟩]).requests
        = (([⟨"a.mp3", true⟩, ⟨"b.wav", true⟩, ⟨"sub", false⟩] : List Entry).filter
            (fun e => e.isFile)).map
            (fun e => sst_request (osPathJoin audios_folder e.name) [] (some "c"))
      ∧ (batch_loop ((fun _ _ => Except.ok 0) : Client → RecognizeRequest → Except Unit Nat)
          (instantiate_stt "k" "u") [] (some "c")
          [⟨"a.mp3", true⟩, ⟨"b.wav", true⟩, ⟨"sub", false⟩]).written.map Prod.fst
        = (([⟨"a.mp3", true⟩, ⟨"b.wav", true⟩, ⟨"sub", false⟩] : List Entry).filter
            (fun e => e.isFile)).map
            (fun e => save_json_path e.name json_folder) :=
  claim_batch_regular_files
    ((fun _ _ => Except.ok 0) : Client → RecognizeRequest → Except Unit Nat)
    (instantiate_stt "k" "u") [] (some "c")
    [⟨"a.mp3", true⟩, ⟨"b.wav", true⟩, ⟨"sub", false⟩]
    (fun _ _ _ => ⟨0, rfl⟩)

/-- Claim C1: if the recognition call fails on one regular file, the batch
loop stops there — the failure is recorded, the failing request is the last
one submitted (no request for any later entry), outputs written for earlier
regular files remain, and no output is written for the failing or any later
file. -/
theorem claim_batch_stops_on_first_error {E J : Type}
    (service : Client → RecognizeRequest → Except E J) (client : Client)
    (keywords : List Cell) (custom_id : Option String)
    (pre post : List Entry) (f : Entry) (err : E)
    (hf : f.isFile = true)
    (hpre : ∀ e ∈ pre, e.isFile = true →
      ∃ d, service client (sst_request (osPathJoin audios_folder e.name) keywords custom_id)
        = Except.ok d)
    (herr : service client (sst_request (osPathJoin audios_folder f.name) keywords custom_id)
      = Except.error err) :
    (batch_loop service client keywords custom_id (pre ++ f :: post)).failure = some err
      ∧ (batch_loop service client keywords custom_id (pre ++ f :: post)).requests
        = (pre.filter (fun e => e.isFile)).map
            (fun e => sst_request (osPathJoin audios_folder e.name) keywords custom_id)
          ++ [sst_request (osPathJoin audios_folder f.name) keywords custom_id]
      ∧ (batch_loop service client keywords custom_id (pre ++ f :: post)).written.map Prod.fst
        = (pre.filter (fun e => e.isFile)).map
            (fun e => save_json_path e.name json_folder) := by
  induction pre with
  | nil =>
    rw [List.nil_append, batch_loop_cons_err service client keywords custom_id f post err
      hf herr]
    exact ⟨rfl, by simp, rfl⟩
  | cons e pre' ih =>
    have hrest := ih (fun e' he' hf' => hpre e' (List.mem_cons_of_mem _ he') hf')
    rw [List.cons_append]
    by_cases he : e.isFile = true
    · obtain ⟨d, hd⟩ := hpre e (List.mem_cons_self e pre') he
      rw [batch_loop_cons_ok service client keywords custom_id e (pre' ++ f :: post) d he hd]
      refine ⟨hrest.1, ?_, ?_⟩
      · simp [List.filter_cons, he, hrest.2.1]
      · simp [List.filter_cons, he, hrest.2.2]
    · have he' : e.isFile = false := by
        revert he
        cases e.isFile <;> simp
      rw [batch_loop_cons_skip service client keywords custom_id e (pre' ++ f :: post) he']
      refine ⟨hrest.1, ?_, ?_⟩
      · simp [List.filter_cons, he', hrest.2.1]
      · simp [List.filter_cons, he', hrest.2.2]

/-- Witness for claim C1: of three regular files the second fails; only the
first is written, the third is never attempted. -/
theorem claim_batch_stops_on_first_error_witness :
    (batch_loop ((fun _ r => if r.audio = osPathJoin audios_folder "a.mp3"
          then Except.ok 0 else Except.error ()) :
        Client → RecognizeRequest → Except Unit Nat)
        (instantiate_stt "k" "u") [] (some "c")
        ([⟨"a.mp3", true⟩] ++ ⟨"b.mp3", true⟩ :: [⟨"c.mp3", true⟩])).failure = some ()
      ∧ (batch_loop ((fun _ r => if r.audio = osPathJoin audios_folder "a.mp3"
            then Except.ok 0 else Except.error ()) :
          Client → RecognizeRequest → Except Unit Nat)
          (instantiate_stt "k" "u") [] (some "c")
          ([⟨"a.mp3", true⟩] ++ ⟨"b.mp3", true⟩ :: [⟨"c.mp3", true⟩])).requests
        = (([⟨"a.mp3", true⟩] : List Entry).filter (fun e => e.isFile)).map
            (fun e => sst_request (osPathJoin audios_folder e.name) [] (some "c"))
          ++ [sst_request (osPathJoin audios_folder "b.mp3") [] (some "c")]
      ∧ (batch_loop ((fun _ r => if r.audio = osPathJoin audios_folder "a.mp3"
            then Except.ok 0 else Except.error ()) :
          Client → RecognizeRequest → Except Unit Nat)
          (instantiate_stt "k" "u") [] (some "c")
          ([⟨"a.mp3", true⟩] ++ ⟨"b.mp3", true⟩ :: [⟨"c.mp3", true⟩])).written.map Prod.fst
        = (([⟨"a.mp3", true⟩] : List Entry).filter (fun e => e.isFile)).map
            (fun e => save_json_path e.name json_folder) :=
  claim_batch_stops_on_first_error
    ((fun _ r => if r.audio = osPathJoin audios_folder "a.mp3"
        then Except.ok 0 else Except.error ()) :
      Client → RecognizeRequest → Except Unit Nat)
    (instantiate_stt "k" "u") [] (some "c")
    [⟨"a.mp3", true⟩] [⟨"c.mp3", true⟩] ⟨"b.mp3", true⟩ ()
    rfl
    (by
      intro e he hf
      have he' : e = ⟨"a.mp3", true⟩ := by simpa using he
      subst he'
      exact ⟨0, by simp [sst_request]⟩)
    (by
      simp only [sst_request]
      rw [if_neg (by decide)])

end SttRecognize
